import Mathlib

set_option autoImplicit false

/-!
Verification of the `persist` write-ahead/replay log library.

The development shallowly embeds the three components the specification
describes:

* the concatenating reader `multiReadCloser` (source: `unnamed/part_001`,
  `multiReadCloser.Read` / `multiReadCloser.Close`);
* the file destination `fileDest` (source: `unnamed/part_000`,
  `NewFileDest`, `createNewFile`, `startNew`, `StartRotate`, `EndRotate`);
* the log coordinator `pLog` (source: `noop_dest.go`: `Output`, `Write`,
  `finishRotate`, `replay`, `NewLog`).

Go strings are modelled as `List Char`; the filesystem is modelled as the
list of existing file names; destinations and the gob codec are modelled by
passing their observable responses as explicit arguments.
-/

namespace Persist

/-- Go strings, modelled as lists of characters. -/
abbrev Str := List Char

/-- `strStartsWith s p` embeds Go `strings.HasPrefix(s, p)` (and the
success of the glob pattern `p + "*"` against `s`). -/
def strStartsWith : Str → Str → Bool
  | _, [] => true
  | [], _ :: _ => false
  | a :: as, b :: bs => a = b && strStartsWith as bs

/-- `strEndsWith s u` embeds Go `strings.HasSuffix(s, u)`:
`len(s) >= len(u) && s[len(s)-len(u):] == u`. -/
def strEndsWith (s u : Str) : Bool :=
  decide (u.length ≤ s.length) && decide (s.drop (s.length - u.length) = u)

/-- `strTrimSuffix s u` embeds Go `strings.TrimSuffix(s, u)`. -/
def strTrimSuffix (s u : Str) : Str :=
  if strEndsWith s u then s.take (s.length - u.length) else s

theorem strStartsWith_append (a b : Str) : strStartsWith (a ++ b) a = true := by
  induction a with
  | nil => cases b <;> rfl
  | cons x xs ih => simp [strStartsWith, ih]

theorem strEndsWith_iff (s u : Str) :
    strEndsWith s u = true ↔ u.length ≤ s.length ∧ s.drop (s.length - u.length) = u := by
  simp [strEndsWith]

theorem strEndsWith_append (a b : Str) : strEndsWith (a ++ b) b = true := by
  rw [strEndsWith_iff]
  constructor
  · simp
  · have h : (a ++ b).length - b.length = a.length := by simp
    rw [h, List.drop_left]

/-- Decompose a string along a verified suffix. -/
theorem strEndsWith_decomp {s u : Str} (h : strEndsWith s u = true) :
    s = s.take (s.length - u.length) ++ u := by
  rcases (strEndsWith_iff s u).mp h with ⟨_, hdrop⟩
  conv_lhs => rw [← List.take_append_drop (s.length - u.length) s]
  rw [hdrop]

/-- If `y ++ s` carries the suffix `t` and `t` is at least as long as `s`,
then `t` itself carries the suffix `s`. -/
theorem strEndsWith_of_append {y s t : Str} (hlen : s.length ≤ t.length)
    (h : strEndsWith (y ++ s) t = true) : strEndsWith t s = true := by
  rcases (strEndsWith_iff (y ++ s) t).mp h with ⟨hle, hdrop⟩
  rw [List.length_append] at hle hdrop
  rw [List.drop_append_eq_append_drop] at hdrop
  have h0 : y.length + s.length - t.length - y.length = 0 := by omega
  rw [h0, List.drop_zero] at hdrop
  rw [strEndsWith_iff]
  refine ⟨hlen, ?_⟩
  rw [← hdrop, List.length_append]
  have h1 : (y.drop (y.length + s.length - t.length)).length + s.length - s.length
      = (y.drop (y.length + s.length - t.length)).length := by omega
  rw [h1, List.drop_left]

theorem strTrimSuffix_append (a b : Str) : strTrimSuffix (a ++ b) b = a := by
  rw [strTrimSuffix, if_pos (strEndsWith_append a b)]
  have h : (a ++ b).length - b.length = a.length := by simp
  rw [h, List.take_left]

/-! ### The concatenating reader (`multiReadCloser`, `unnamed/part_001`) -/

/-- Result of a single Go `Read` call: `eof` models `io.EOF`, `other`
models any non-EOF error. -/
inductive RErr where
  | eof
  | other (msg : String)
deriving DecidableEq

/-- One underlying `io.ReadCloser`: an identifier plus the sequence of
`(n, err)` responses its successive `Read` calls produce, and the error its
`Close` returns. A reader whose scripted responses are exhausted answers
`(0, io.EOF)` forever, like a drained Go reader. -/
structure RC where
  id : Nat
  resps : List (Nat × Option RErr)
  closeErr : Option RErr := none
deriving DecidableEq

/-- The next `(n, err)` response of a reader. -/
def rcRead1 (r : RC) : Nat × Option RErr := r.resps.headD (0, some RErr.eof)

/-- The reader after one `Read` call has consumed a response. -/
def rcRest (r : RC) : RC := { r with resps := r.resps.tail }

/-- Observable outcome of one `multiReadCloser.Read` call: the remaining
reader list, the identifiers of readers closed during the call, and the
`(n, err)` returned to the caller. -/
structure MRRes where
  rem : List RC
  closedIds : List Nat
  n : Nat
  err : Option RErr
deriving DecidableEq

/-- `multiReadCloser.Read` (`unnamed/part_001` lines 269-284): pop responses
from the head reader; on `(0, io.EOF)` close and drop it and move on; on
bytes or a non-EOF error return immediately, suppressing an EOF that
accompanied bytes; once the list is empty return `(0, io.EOF)`. -/
def mrRead : List RC → MRRes
  | [] => ⟨[], [], 0, some RErr.eof⟩
  | r :: rest =>
    let p := rcRead1 r
    if p.1 > 0 ∨ p.2 ≠ some RErr.eof then
      ⟨rcRest r :: rest, [], p.1, if p.2 = some RErr.eof then none else p.2⟩
    else
      let q := mrRead rest
      ⟨q.rem, r.id :: q.closedIds, q.n, q.err⟩

/-- State of a `multiReadCloser`. -/
structure MRC where
  readClosers : List RC
deriving DecidableEq

/-- First non-nil `Close` error among the readers, as collected by
`multiReadCloser.Close`. -/
def mrCloseErr : List RC → Option RErr
  | [] => none
  | r :: rest =>
    match r.closeErr with
    | some e => some e
    | none => mrCloseErr rest

/-- `multiReadCloser.Close` (`unnamed/part_001` lines 286-296): close every
reader, keep the first error, and reset the list to empty. -/
def mrClose (m : MRC) : Option RErr × MRC :=
  (mrCloseErr m.readClosers, ⟨[]⟩)

theorem mrRead_eof_iff (rs : List RC) :
    (mrRead rs).err = some RErr.eof ↔ ∀ r ∈ rs, rcRead1 r = (0, some RErr.eof) := by
  induction rs with
  | nil => simp [mrRead]
  | cons r rest ih =>
    by_cases hc : (rcRead1 r).1 > 0 ∨ (rcRead1 r).2 ≠ some RErr.eof
    · rw [mrRead, if_pos hc]
      constructor
      · intro h
        exfalso
        rcases hc with h1 | h2
        · split at h <;> simp_all
        · split at h
          · exact absurd h (by simp)
          · exact h2 (h ▸ rfl)
      · intro h
        have := h r (by simp)
        rcases hc with h1 | h2
        · rw [this] at h1; exact absurd h1 (by simp)
        · exact absurd (by rw [this]) h2
    · push_neg at hc
      have hp : rcRead1 r = (0, some RErr.eof) := by
        rcases hc with ⟨h1, h2⟩
        have : (rcRead1 r).1 = 0 := by omega
        exact Prod.ext this h2
      rw [mrRead, if_neg (by push_neg; exact ⟨hc.1, hc.2⟩)]
      simp only [List.mem_cons]
      constructor
      · intro h q hq
        rcases hq with hq | hq
        · exact hq ▸ hp
        · exact (ih.mp h) q hq
      · intro h
        exact ih.mpr (fun q hq => h q (Or.inr hq))

theorem mrRead_eof_all (rs : List RC) (h : ∀ r ∈ rs, rcRead1 r = (0, some RErr.eof)) :
    mrRead rs = ⟨[], rs.map RC.id, 0, some RErr.eof⟩ := by
  induction rs with
  | nil => rfl
  | cons r rest ih =>
    have hp : rcRead1 r = (0, some RErr.eof) := h r (by simp)
    rw [mrRead, if_neg (by rw [hp]; simp)]
    rw [ih (fun q hq => h q (List.mem_cons_of_mem _ hq))]
    simp

theorem mrRead_skip (pre rs : List RC) (h : ∀ q ∈ pre, rcRead1 q = (0, some RErr.eof)) :
    mrRead (pre ++ rs)
      = { mrRead rs with closedIds := pre.map RC.id ++ (mrRead rs).closedIds } := by
  induction pre with
  | nil => simp
  | cons q pre ih =>
    have hp : rcRead1 q = (0, some RErr.eof) := h q (by simp)
    rw [List.cons_append, mrRead, if_neg (by rw [hp]; simp)]
    rw [ih (fun x hx => h x (List.mem_cons_of_mem _ hx))]
    simp

/-- C6: the concatenating reader reads from the first non-exhausted source.
For every reader list: Read answers EOF exactly when every source's next
read is `(0, EOF)` (then all are closed and removed); otherwise the first
source whose next read is not `(0, EOF)` services the call: the exhausted
sources in front of it are closed and removed, the servicing source stays
(un-closed) at the head of the list, its byte count is returned, and an EOF
accompanying bytes is suppressed while a non-EOF error is surfaced
unchanged. -/
theorem mrRead_first_source_semantics (rs : List RC) :
    ((mrRead rs).err = some RErr.eof ↔ ∀ r ∈ rs, rcRead1 r = (0, some RErr.eof))
  ∧ ((mrRead rs).err = some RErr.eof →
      (mrRead rs).n = 0 ∧ (mrRead rs).rem = [] ∧ (mrRead rs).closedIds = rs.map RC.id)
  ∧ (∀ pre r post, rs = pre ++ r :: post →
      (∀ q ∈ pre, rcRead1 q = (0, some RErr.eof)) →
      rcRead1 r ≠ (0, some RErr.eof) →
        (mrRead rs).closedIds = pre.map RC.id
      ∧ (mrRead rs).rem = rcRest r :: post
      ∧ (mrRead rs).n = (rcRead1 r).1
      ∧ (mrRead rs).err
          = (if (rcRead1 r).2 = some RErr.eof then none else (rcRead1 r).2)) := by
  refine ⟨mrRead_eof_iff rs, ?_, ?_⟩
  · intro h
    rw [mrRead_eof_all rs ((mrRead_eof_iff rs).mp h)]
    exact ⟨rfl, rfl, rfl⟩
  · intro pre r post hrs hpre hr
    subst hrs
    have hcond : (rcRead1 r).1 > 0 ∨ (rcRead1 r).2 ≠ some RErr.eof := by
      by_contra hcon
      push_neg at hcon
      exact hr (Prod.ext (by omega) hcon.2)
    rw [mrRead_skip pre (r :: post) hpre, mrRead, if_pos hcond]
    exact ⟨by simp, rfl, rfl, rfl⟩

def rcA : RC := ⟨1, [(0, some RErr.eof)], none⟩

def rcB : RC := ⟨2, [(5, none), (0, some RErr.eof)], none⟩

theorem mrRead_first_source_semantics_witness :
      (mrRead [rcA, rcB]).closedIds = [rcA].map RC.id
    ∧ (mrRead [rcA, rcB]).rem = rcRest rcB :: []
    ∧ (mrRead [rcA, rcB]).n = (rcRead1 rcB).1
    ∧ (mrRead [rcA, rcB]).err
        = (if (rcRead1 rcB).2 = some RErr.eof then none else (rcRead1 rcB).2) :=
  (mrRead_first_source_semantics [rcA, rcB]).2.2 [rcA] rcB []
    rfl (by decide) (by decide)

/-- C10: after `multiReadCloser.Close` the internal reader list is empty,
every subsequent Read on that state returns zero bytes with EOF, and a
second Close is a no-op returning nil. -/
theorem mrClose_empties_and_idempotent (m : MRC) :
    (mrClose m).2.readClosers = []
  ∧ mrRead (mrClose m).2.readClosers = ⟨[], [], 0, some RErr.eof⟩
  ∧ mrClose (mrClose m).2 = (none, ⟨[]⟩) :=
  ⟨rfl, rfl, rfl⟩

/-! ### The log coordinator (`pLog`, `noop_dest.go`) -/

/-- Go error values, identified by their message. -/
abbrev GoErr := String

/-- Coordinator state (`pLog` struct in `noop_dest.go`). `encoder` is
`none` for a nil encoder and `some g` for the encoder of generation `g`;
`pLogErrorLatch` models the package-level `pLogError` log-once latch. -/
structure PLog where
  size : Int
  sizeReplay : Int
  objects : Nat
  sizeLimit : Int
  encoder : Option Nat
  rotating : Bool
  errState : Option GoErr
  pLogErrorLatch : Bool
deriving DecidableEq

/-- `pLog.HealthCheck`: returns the sticky error state. -/
def pLogHealthCheck (st : PLog) : Option GoErr := st.errState

/-- One chunk the gob encoder pushes through `pLog.Write`: the chunk
length `l` together with the primary destination's response `(priN,
priErr)` to `priDest.Write`. -/
structure Chunk where
  l : Nat
  priN : Nat
  priErr : Option GoErr
deriving DecidableEq

/-- `pLog.Write` (`noop_dest.go` lines 246-272): reject while sticky;
account the length to `size` (or to `sizeReplay` while rotating); forward
to the primary destination, making a short write or error sticky; the
secondary destination is best-effort and has no observable effect here. -/
def pLogWrite (st : PLog) (c : Chunk) : PLog × Nat × Option GoErr :=
  match st.errState with
  | some e => (st, 0, some e)
  | none =>
    let st := if st.rotating then { st with sizeReplay := st.sizeReplay + c.l }
              else { st with size := st.size + c.l }
    if c.priN ≠ c.l ∨ c.priErr ≠ none then
      ({ st with errState := c.priErr }, c.priN, c.priErr)
    else (st, c.priN, none)

/-- The error the gob encoder reports on a short sink write. -/
def shortWriteErr : GoErr := "short write"

/-- The gob encoder modelled as a sequence of sink writes: it pushes its
chunks through `pLog.Write` in order and stops with an error as soon as a
write fails or comes up short. -/
def encodeChunks (st : PLog) : List Chunk → PLog × Option GoErr
  | [] => (st, none)
  | c :: rest =>
    let (st', n, e) := pLogWrite st c
    match e with
    | some err => (st', some err)
    | none => if n ≠ c.l then (st', some shortWriteErr) else encodeChunks st' rest

/-- One `Output` call's encoding behaviour: either the encoder fails
before writing (`encPre`), or it emits `chunks` through the sink. -/
structure OutCall where
  encPre : Option GoErr
  chunks : List Chunk
deriving DecidableEq

/-- Result of one `pLog.Output` call: the new state, the returned error,
and whether a rotation goroutine was spawned (`pl.rotate()` fired). -/
structure OutRes where
  st : PLog
  ret : Option GoErr
  spawned : Bool
deriving DecidableEq

/-- The error `Output` returns on a nil encoder. -/
def uninitializedErr : GoErr := "uninitialized persistence log (nil encoder)"

/-- The tail of `pLog.Output` past the sticky-error and nil-encoder
guards: count the object, encode; an encode error becomes sticky, and
after a successful encode a rotation is scheduled (`pl.rotate()`, which
sets `rotating` and spawns `finishRotate`) when none is in progress and
the post-snapshot size exceeds the limit. -/
def pLogOutputCore (st : PLog) (c : OutCall) : OutRes :=
  let st := { st with objects := st.objects + 1 }
  let (st2, encErr) :=
    match c.encPre with
    | some e => (st, some e)
    | none => encodeChunks st c.chunks
  match encErr with
  | some e => ⟨{ st2 with errState := some e }, some e, false⟩
  | none =>
    if st2.rotating = false ∧ st2.size > st2.sizeLimit then
      ⟨{ st2 with rotating := true }, none, true⟩
    else ⟨st2, none, false⟩

/-- `pLog.Output` (`noop_dest.go` lines 117-146): return the sticky error
if set (latching the critical-log flag); otherwise clear the latch, fail
on a nil encoder, and otherwise proceed to encode (`pLogOutputCore`). -/
def pLogOutput (st : PLog) (c : OutCall) : OutRes :=
  match st.errState with
  | some e => ⟨{ st with pLogErrorLatch := true }, some e, false⟩
  | none =>
    let st := { st with pLogErrorLatch := false }
    match st.encoder with
    | none => ⟨st, some uninitializedErr, false⟩
    | some _ => pLogOutputCore st c

/-- State transformer of one `Output` call (used for `PersistAll`, which
is a sequence of `Output` calls made by the application). -/
def pLogOutputSt (st : PLog) (c : OutCall) : PLog := (pLogOutput st c).st

/-- `pLog.finishRotate` (`noop_dest.go` lines 174-211): zero both
counters; `StartRotate` on the primary (its error given as `startErr`)
becomes sticky and aborts; otherwise bind a fresh encoder, run the
application's `PersistAll` (a sequence of `Output` calls), `EndRotate` on
the primary (error given as `endErr`), clear `rotating`, and make an
`EndRotate` error sticky. Secondary-destination errors are dropped, as in
the source. -/
def finishRotate (st : PLog) (startErr : Option GoErr) (persistCalls : List OutCall)
    (endErr : Option GoErr) : PLog :=
  let st := { st with size := 0, sizeReplay := 0 }
  match startErr with
  | some e => { st with errState := some e }
  | none =>
    let st := { st with encoder := some (st.encoder.getD 0 + 1) }
    let st := persistCalls.foldl pLogOutputSt st
    let st := { st with rotating := false }
    match endErr with
    | some e => { st with errState := some e }
    | none => st

/-- A replay source as the gob decoder sees it: the events that decode
successfully, in order, followed by what the decoder reports next —
`none` for a clean `io.EOF`, `some e` for a decode error. Events are
opaque and numbered. -/
structure ReplaySource where
  events : List Nat
  term : Option GoErr
deriving DecidableEq

/-- Errors produced by `pLog.replay` (`noop_dest.go` lines 214-243),
carrying exactly the data interpolated into the source's format strings:
`decodeFailed logNum entries cause` is "replay decode failed in log %d
after %d entries: %s"; `replayFailed entry cause` is "replay failed on
entry %d: %s". -/
inductive ReplayErr where
  | decodeFailed (logNum entries : Nat) (cause : GoErr)
  | replayFailed (entry : Nat) (cause : GoErr)
deriving DecidableEq

/-- The replay source index carried by a replay error, if any. -/
def replayErrLogNum : ReplayErr → Option Nat
  | .decodeFailed logNum _ _ => some logNum
  | .replayFailed _ _ => none

/-- The inner loop of `pLog.replay` over one source: decode events one
after another, counting them, and call the client's `Replay` on each;
abort on a decode error or a `Replay` error. -/
def replayEvents (client : Nat → Option GoErr) (logNum : Nat) :
    Nat → List Nat → Option GoErr → Option ReplayErr
  | _, [], none => none
  | count, [], some e => some (.decodeFailed logNum count e)
  | count, ev :: rest, term =>
    match client ev with
    | some e => some (.replayFailed (count + 1) e)
    | none => replayEvents client logNum (count + 1) rest term

/-- The outer loop of `pLog.replay`: walk the replay sources in order
(`logNum` is the 1-based index), aborting on the first error. -/
def replayFrom (client : Nat → Option GoErr) : Nat → List ReplaySource → Option ReplayErr
  | _, [] => none
  | i, src :: rest =>
    match replayEvents client (i + 1) 0 src.events src.term with
    | some e => some e
    | none => replayFrom client (i + 1) rest

/-- `pLog.replay` over the primary destination's replay readers. -/
def pLogReplay (client : Nat → Option GoErr) (srcs : List ReplaySource) : Option ReplayErr :=
  replayFrom client 0 srcs

/-- An error surfaced by `NewLog`: from replay, or from the final
`EndRotate`. -/
inductive NLErr where
  | fromReplay (e : ReplayErr)
  | fromEnd (e : GoErr)
deriving DecidableEq

/-- The coordinator state `NewLog` builds before replaying: fresh encoder,
1 MiB default size limit, clean error state. -/
def pLogInit : PLog :=
  { size := 0, sizeReplay := 0, objects := 0, sizeLimit := 1024 * 1024,
    encoder := some 0, rotating := false, errState := none, pLogErrorLatch := false }

/-- `NewLog` (`noop_dest.go` lines 276-310): build the initial state,
replay (a failure is returned with a nil coordinator), take the initial
snapshot with `rotating` set (`persistCalls` are the `Output` calls made
by `PersistAll`), then `EndRotate` on the primary (its error given as
`endErr`), whose failure is also returned with a nil coordinator. -/
def newLog (client : Nat → Option GoErr) (srcs : List ReplaySource)
    (persistCalls : List OutCall) (endErr : Option GoErr) : Option PLog × Option NLErr :=
  let pl := pLogInit
  match pLogReplay client srcs with
  | some e => (none, some (.fromReplay e))
  | none =>
    let pl := { pl with rotating := true }
    let pl := persistCalls.foldl pLogOutputSt pl
    let pl := { pl with rotating := false }
    match endErr with
    | some e => (none, some (.fromEnd e))
    | none => (some pl, none)

theorem pLogWrite_pres (st : PLog) (c : Chunk) :
    (pLogWrite st c).1.rotating = st.rotating
  ∧ (pLogWrite st c).1.sizeLimit = st.sizeLimit
  ∧ (pLogWrite st c).1.encoder = st.encoder := by
  cases h : st.errState with
  | some e => simp [pLogWrite, h]
  | none =>
    simp only [pLogWrite, h]
    split_ifs <;> simp

theorem encodeChunks_pres (cs : List Chunk) (st : PLog) :
    (encodeChunks st cs).1.rotating = st.rotating
  ∧ (encodeChunks st cs).1.sizeLimit = st.sizeLimit
  ∧ (encodeChunks st cs).1.encoder = st.encoder := by
  induction cs generalizing st with
  | nil => exact ⟨rfl, rfl, rfl⟩
  | cons c rest ih =>
    obtain ⟨h1, h2, h3⟩ := pLogWrite_pres st c
    simp only [encodeChunks]
    rcases hw : pLogWrite st c with ⟨st', n, e⟩
    rw [hw] at h1 h2 h3
    cases e with
    | some err => exact ⟨h1, h2, h3⟩
    | none =>
      by_cases hn : n ≠ c.l
      · rw [if_pos hn]; exact ⟨h1, h2, h3⟩
      · rw [if_neg hn]
        obtain ⟨g1, g2, g3⟩ := ih st'
        exact ⟨g1.trans h1, g2.trans h2, g3.trans h3⟩

theorem pLogOutputCore_trigger (st : PLog) (c : OutCall) :
    (pLogOutputCore st c).spawned = true ↔
      (pLogOutputCore st c).ret = none ∧ st.rotating = false
        ∧ (pLogOutputCore st c).st.size > st.sizeLimit := by
  cases hp : c.encPre with
  | some e => simp [pLogOutputCore, hp]
  | none =>
    rcases hE : encodeChunks { st with objects := st.objects + 1 } c.chunks with ⟨st2, encErr⟩
    obtain ⟨hr, hl, _⟩ := encodeChunks_pres c.chunks { st with objects := st.objects + 1 }
    rw [hE] at hr hl
    simp only at hr hl
    simp only [pLogOutputCore, hp, hE]
    cases encErr with
    | some e => simp
    | none =>
      by_cases hcond : st2.rotating = false ∧ st2.size > st2.sizeLimit
      · rw [if_pos hcond]
        constructor
        · intro _
          exact ⟨rfl, by rw [← hr]; exact hcond.1, by rw [← hl]; exact hcond.2⟩
        · intro _
          rfl
      · rw [if_neg hcond]
        constructor
        · intro hfalse
          exact absurd hfalse (by simp)
        · rintro ⟨-, hrot, hsz⟩
          exfalso
          exact hcond ⟨by rw [hr]; exact hrot, by rw [hl]; exact hsz⟩

/-- C5: `Output` schedules a rotation exactly when, after a successful
encode, no rotation is in progress and the post-snapshot byte counter
`size` strictly exceeds the configured limit; while a rotation is in
progress, sink writes are accounted to `sizeReplay` and leave `size` (the
trigger counter) untouched; and the limit defaults to 1 MiB. -/
theorem output_rotation_trigger :
    (∀ (st : PLog) (c : OutCall), st.errState = none → st.encoder ≠ none →
      ((pLogOutput st c).spawned = true ↔
        (pLogOutput st c).ret = none ∧ st.rotating = false
          ∧ (pLogOutput st c).st.size > st.sizeLimit))
  ∧ (∀ (st : PLog) (ch : Chunk), st.errState = none → st.rotating = true →
      (pLogWrite st ch).1.size = st.size
        ∧ (pLogWrite st ch).1.sizeReplay = st.sizeReplay + ch.l)
  ∧ pLogInit.sizeLimit = 1024 * 1024 := by
  refine ⟨?_, ?_, rfl⟩
  · intro st c h1 h2
    obtain ⟨sz, szr, obj, lim, enc, rot, err, latch⟩ := st
    simp only at h1 h2
    subst h1
    cases enc with
    | none => exact absurd rfl h2
    | some g => exact pLogOutputCore_trigger ⟨sz, szr, obj, lim, some g, rot, none, false⟩ c
  · intro st ch h1 h2
    simp only [pLogWrite, h1, h2]
    split_ifs <;> simp

def stRotW : PLog := { pLogInit with sizeLimit := 10 }

def callRotW : OutCall := ⟨none, [⟨20, 20, none⟩]⟩

theorem output_rotation_trigger_witness :
    (pLogOutput stRotW callRotW).spawned = true :=
  (output_rotation_trigger.1 stRotW callRotW rfl (by decide)).mpr (by decide)

/-- C9: with no sticky error but a nil encoder, `Output` returns the
uninitialized-log error without becoming sticky: the state changes only in
the log-once latch, and `HealthCheck` still returns nil afterwards, so
later `Output` calls are not gated by the sticky-error branch. -/
theorem output_nil_encoder_not_sticky (st : PLog) (c : OutCall)
    (h1 : st.errState = none) (h2 : st.encoder = none) :
    pLogOutput st c
      = ⟨{ st with pLogErrorLatch := false }, some uninitializedErr, false⟩
  ∧ pLogHealthCheck (pLogOutput st c).st = none := by
  have hout : pLogOutput st c
      = ⟨{ st with pLogErrorLatch := false }, some uninitializedErr, false⟩ := by
    simp [pLogOutput, h1, h2]
  exact ⟨hout, by rw [hout]; simpa [pLogHealthCheck] using h1⟩

def stNilEnc : PLog := { pLogInit with encoder := none }

theorem output_nil_encoder_not_sticky_witness :
    pLogOutput stNilEnc ⟨none, []⟩
      = ⟨{ stNilEnc with pLogErrorLatch := false }, some uninitializedErr, false⟩
  ∧ pLogHealthCheck (pLogOutput stNilEnc ⟨none, []⟩).st = none :=
  output_nil_encoder_not_sticky stNilEnc ⟨none, []⟩ rfl rfl

def diskFullErr : GoErr := "disk full"

/-- A coordinator that went sticky (e.g. after a failed primary write)
while a rotation was already in flight. -/
def stStuck : PLog := { pLogInit with errState := some diskFullErr, rotating := true }

/-- C1 (failing input): a rotation whose `StartRotate` and `EndRotate`
both succeed does not clear the sticky error: afterwards `HealthCheck`
still returns the error and `Output` still returns it. The coordinator
never assigns `errState = nil`, contradicting the `Log.HealthCheck`
documentation, which promises that the error goes away again once the log
is repaired by a rotation. -/
theorem sticky_error_survives_successful_rotation :
    pLogHealthCheck (finishRotate stStuck none [] none) = some diskFullErr
  ∧ (finishRotate stStuck none [] none).rotating = false
  ∧ (pLogOutput (finishRotate stStuck none [] none) ⟨none, []⟩).ret = some diskFullErr :=
  ⟨rfl, rfl, rfl⟩

theorem replayEvents_clean (client : Nat → Option GoErr) (logNum : Nat) (evs : List Nat)
    (h : ∀ e ∈ evs, client e = none) :
    ∀ count, replayEvents client logNum count evs none = none := by
  induction evs with
  | nil => intro count; rfl
  | cons ev rest ih =>
    intro count
    have he : client ev = none := h ev (by simp)
    simp only [replayEvents, he]
    exact ih (fun x hx => h x (List.mem_cons_of_mem _ hx)) (count + 1)

theorem replayEvents_decode_error (client : Nat → Option GoErr) (logNum : Nat)
    (evs : List Nat) (cause : GoErr) (h : ∀ e ∈ evs, client e = none) :
    ∀ count, replayEvents client logNum count evs (some cause)
      = some (.decodeFailed logNum (count + evs.length) cause) := by
  induction evs with
  | nil => intro count; simp [replayEvents]
  | cons ev rest ih =>
    intro count
    have he : client ev = none := h ev (by simp)
    simp only [replayEvents, he]
    rw [ih (fun x hx => h x (List.mem_cons_of_mem _ hx)) (count + 1)]
    simp only [List.length_cons]
    congr 2
    omega

theorem replayEvents_replay_error (client : Nat → Option GoErr) (logNum : Nat)
    (evs : List Nat) (ev : Nat) (tl : List Nat) (term : Option GoErr) (cause : GoErr)
    (h : ∀ x ∈ evs, client x = none) (he : client ev = some cause) :
    ∀ count, replayEvents client logNum count (evs ++ ev :: tl) term
      = some (.replayFailed (count + evs.length + 1) cause) := by
  induction evs with
  | nil => intro count; simp [replayEvents, he]
  | cons x rest ih =>
    intro count
    have hx : client x = none := h x (by simp)
    simp only [List.cons_append, replayEvents, hx, List.append_eq]
    rw [ih (fun y hy => h y (List.mem_cons_of_mem _ hy)) (count + 1)]
    simp only [List.length_cons]
    congr 2
    omega

/-- A replay source whose events all replay cleanly and that ends in a
clean EOF. -/
def sourceClean (client : Nat → Option GoErr) (s : ReplaySource) : Prop :=
  (∀ e ∈ s.events, client e = none) ∧ s.term = none

theorem replayFrom_skip (client : Nat → Option GoErr) (pre rs : List ReplaySource)
    (h : ∀ s ∈ pre, sourceClean client s) :
    ∀ k, replayFrom client k (pre ++ rs) = replayFrom client (k + pre.length) rs := by
  induction pre with
  | nil => intro k; simp
  | cons s pre ih =>
    intro k
    obtain ⟨hev, ht⟩ := h s (by simp)
    simp only [List.cons_append, replayFrom, ht, List.append_eq,
      replayEvents_clean client (k + 1) s.events hev 0]
    rw [ih (fun x hx => h x (List.mem_cons_of_mem _ hx)) (k + 1)]
    simp only [List.length_cons]
    congr 1
    omega

def clientBoom : Nat → Option GoErr := fun e => if e = 7 then some "boom" else none

/-- C4 counterexample: when the client's `Replay` fails on the first event
of the first source, the resulting error is `replayFailed 1 "boom"`
("replay failed on entry %d: %s"), which carries the event ordinal but no
replay source index — the claim that the resulting error carries both is
false at this input. -/
theorem replay_error_lacks_source_index :
    pLogReplay clientBoom [⟨[7], none⟩] = some (.replayFailed 1 "boom")
  ∧ replayErrLogNum (ReplayErr.replayFailed 1 "boom") = none :=
  ⟨rfl, rfl⟩

/-- C4 (amended): replay walks the sources in order and aborts on the
first failure; a decode error surfaces as an error carrying the 1-based
source index and the count of entries decoded from that source, while an
error from the client's `Replay` surfaces as an error carrying only the
1-based event ordinal within the source (and no source index); whenever
replay fails, `NewLog` returns a nil coordinator together with the
error. -/
theorem replay_error_reporting :
    (∀ (client : Nat → Option GoErr) (pre : List ReplaySource) (evs : List Nat)
        (cause : GoErr) (rest : List ReplaySource),
      (∀ s ∈ pre, sourceClean client s) → (∀ e ∈ evs, client e = none) →
      pLogReplay client (pre ++ ⟨evs, some cause⟩ :: rest)
        = some (.decodeFailed (pre.length + 1) evs.length cause))
  ∧ (∀ (client : Nat → Option GoErr) (pre : List ReplaySource) (evs : List Nat)
        (ev : Nat) (tl : List Nat) (term : Option GoErr) (cause : GoErr)
        (rest : List ReplaySource),
      (∀ s ∈ pre, sourceClean client s) → (∀ e ∈ evs, client e = none) →
      client ev = some cause →
      pLogReplay client (pre ++ ⟨evs ++ ev :: tl, term⟩ :: rest)
        = some (.replayFailed (evs.length + 1) cause))
  ∧ (∀ (client : Nat → Option GoErr) (srcs : List ReplaySource)
        (persistCalls : List OutCall) (endErr : Option GoErr) (e : ReplayErr),
      pLogReplay client srcs = some e →
      newLog client srcs persistCalls endErr = (none, some (.fromReplay e))) := by
  refine ⟨?_, ?_, ?_⟩
  · intro client pre evs cause rest hpre hev
    rw [pLogReplay, replayFrom_skip client pre _ hpre 0]
    simp only [Nat.zero_add, replayFrom,
      replayEvents_decode_error client (pre.length + 1) evs cause hev 0]
  · intro client pre evs ev tl term cause rest hpre hev he
    rw [pLogReplay, replayFrom_skip client pre _ hpre 0]
    simp only [Nat.zero_add, replayFrom,
      replayEvents_replay_error client (pre.length + 1) evs ev tl term cause hev he 0]
  · intro client srcs persistCalls endErr e h
    simp [newLog, h]

theorem replay_error_reporting_witness :
    pLogReplay clientBoom [⟨[1], some "bad data"⟩]
      = some (.decodeFailed 1 1 "bad data") := by
  have h := replay_error_reporting.1 clientBoom [] [1] "bad data" []
    (by simp) (by decide)
  simpa using h

/-! ### The file destination (`fileDest`, `unnamed/part_000`)

The filesystem is modelled as the list of existing file names. Opening a
file that the enumeration just returned always succeeds in this model (no
concurrent mutation), so the open-error branches of `NewFileDest` cannot
fire and are not represented. -/

/-- `-new.plog`: new log with incomplete initial snapshot. -/
def newExtS : Str := ['-', 'n', 'e', 'w', '.', 'p', 'l', 'o', 'g']

/-- `-curr.plog`: current log with complete initial snapshot. -/
def currExtS : Str := ['-', 'c', 'u', 'r', 'r', '.', 'p', 'l', 'o', 'g']

/-- `-old.plog`: old log no longer needed. -/
def oldExtS : Str := ['-', 'o', 'l', 'd', '.', 'p', 'l', 'o', 'g']

/-- `.plog`, the extension every segment carries. -/
def plogExtS : Str := ['.', 'p', 'l', 'o', 'g']

/-- `fileDest` state: replay readers and the output file are identified by
their file names. -/
structure FileDest where
  basepath : Str
  replayReaders : List Str
  outputFile : Option Str
  outputFilename : Str
  oldFilename : Str
  snapOK : Bool
deriving DecidableEq

/-- Errors of the file destination, named after the messages in
`unnamed/part_000`. `cannotCreate` wraps a `createNewFile` failure
("Cannot create new log file: %s"). -/
inductive FDErr where
  | basepathInvalid
  | noExistingLog
  | ambiguousSegments
  | tooManySecond
  | createFailed
  | cannotCreate (inner : FDErr)
  | rotateBeforeSnapshot
  | doubleEndRotate
  | wrongFirstSuffix
  | wrongNewSuffix
  | wrongOldSuffix
  | renameFailed
deriving DecidableEq

/-- The glob check `filepath.Glob(n + "*")` finding at least one existing
file beginning with the stem `n`. -/
def stemTaken (fs : List Str) (stem : Str) : Bool :=
  fs.any (fun f => strStartsWith f stem)

/-- The disambiguator letters tried after the bare stem, in loop order
(`i` from right after the backtick up to `z`). -/
def letterList : Str :=
  ['a', 'b', 'c', 'd', 'e', 'f', 'g', 'h', 'i', 'j', 'k', 'l', 'm',
   'n', 'o', 'p', 'q', 'r', 's', 't', 'u', 'v', 'w', 'x', 'y', 'z']

/-- The stems `createNewFile` tries, in order: the undecorated name, then
the name disambiguated with each single letter from a to z. -/
def candidateStems (name : Str) : List Str :=
  name :: letterList.map (fun c => name ++ [c])

/-- The body of the `createNewFile` loop over the remaining candidate
stems: skip a stem some existing file begins with; otherwise create
`stem ++ ext` exclusively (`O_EXCL`); run out of stems and fail with
"Too many log files in the same second". In this model, an empty glob for
the stem implies the exact file does not exist, so the `O_EXCL` failure
branch (`createFailed`) cannot fire. -/
def tryStems (fs : List Str) (ext : Str) : List Str → Except FDErr (Str × List Str)
  | [] => .error .tooManySecond
  | stem :: rest =>
    if stemTaken fs stem then tryStems fs ext rest
    else
      let fn := stem ++ ext
      if fn ∈ fs then .error .createFailed
      else .ok (fn, fn :: fs)

/-- `createNewFile` (`unnamed/part_000` lines 115-138): returns the name
created and the filesystem with it added. -/
def createNewFile (fs : List Str) (name ext : Str) : Except FDErr (Str × List Str) :=
  tryStems fs ext (candidateStems name)

/-- `fileDest.startNew` (`unnamed/part_000` lines 142-161): compose the
timestamped name (the formatted date is passed in as `now`), pick the
extension, create the file, record it, and clear `snapOK`. -/
def fdStartNew (fd : FileDest) (fs : List Str) (now : Str) (useNewExt : Bool) :
    Except FDErr (FileDest × List Str) :=
  let name := fd.basepath ++ now
  let ext := if useNewExt then newExtS else currExtS
  match createNewFile fs name ext with
  | .error e => .error (.cannotCreate e)
  | .ok (fn, fs') =>
    .ok ({ fd with outputFile := some fn, outputFilename := fn, snapOK := false }, fs')

/-- The characters the basepath must not contain. -/
def badChars : Str := ['*', '?', '[', '\\', '.']

/-- `strings.ContainsAny(basepath, "*?[\\.")`. -/
def containsAnyBad (s : Str) : Bool := s.any (fun c => c ∈ badChars)

/-- The glob `basepath + "*.plog"`: names of the form
`basepath ++ mid ++ ".plog"`. -/
def globMatch (basepath f : Str) : Bool :=
  strStartsWith f basepath && strEndsWith f plogExtS
    && decide (basepath.length + plogExtS.length ≤ f.length)

/-- Lexicographic byte order on strings, the order of Go
`sort.Strings`. -/
def strLe : Str → Str → Bool
  | [], _ => true
  | _ :: _, [] => false
  | a :: as, b :: bs => if a = b then strLe as bs else decide (a < b)

def insertSorted (x : Str) : List Str → List Str
  | [] => [x]
  | y :: ys => if strLe x y then x :: y :: ys else y :: insertSorted x ys

/-- A sort agreeing with `sort.Strings` (for the total antisymmetric
order `strLe`, all sorts agree on the result). -/
def sortStrs : List Str → List Str
  | [] => []
  | x :: xs => insertSorted x (sortStrs xs)

/-- The sorted segment enumeration `NewFileDest` classifies. -/
def segEnum (fs : List Str) (basepath : Str) : List Str :=
  sortStrs (fs.filter (globMatch basepath))

/-- `NewFileDest` (`unnamed/part_000` lines 39-110): validate the
basepath, enumerate and sort the segments, classify the shape of the
enumeration to pick the replay readers, and open a fresh output segment
(new-ext iff segments existed). The result carries the filesystem after
the call; on error the filesystem is unchanged. -/
def newFileDest (fs : List Str) (basepath : Str) (create : Bool) (now : Str) :
    Except FDErr FileDest × List Str :=
  if containsAnyBad basepath then (.error .basepathInvalid, fs)
  else
    let m := segEnum fs basepath
    let fd0 : FileDest :=
      { basepath := basepath, replayReaders := [], outputFile := none,
        outputFilename := [], oldFilename := [], snapOK := false }
    let step1 : Except FDErr FileDest :=
      if m = [] then
        if create then .ok fd0 else .error .noExistingLog
      else
        let lastf := m.getLastD []
        if strEndsWith lastf currExtS then
          .ok { fd0 with replayReaders := [lastf], oldFilename := lastf }
        else if strEndsWith lastf newExtS && decide (1 < m.length)
            && strEndsWith (m.getD (m.length - 2) []) currExtS then
          .ok { fd0 with
                  replayReaders := [m.getD (m.length - 2) [], lastf],
                  oldFilename := lastf }
        else .error .ambiguousSegments
    match step1 with
    | .error e => (.error e, fs)
    | .ok fd =>
      match fdStartNew fd fs now (decide (m ≠ [])) with
      | .error e => (.error e, fs)
      | .ok (fd', fs') => (.ok fd', fs')

/-- `fileDest.StartRotate` (`unnamed/part_000` lines 187-196): refuse
while the snapshot is incomplete; otherwise close and demote the current
output file to `oldFilename` and open a fresh `-new` segment. -/
def fdStartRotate (fd : FileDest) (fs : List Str) (now : Str) :
    Except FDErr Unit × FileDest × List Str :=
  if fd.snapOK = false then (.error .rotateBeforeSnapshot, fd, fs)
  else
    let fd1 := { fd with
                   outputFile := none, oldFilename := fd.outputFilename,
                   outputFilename := [] }
    match fdStartNew fd1 fs now true with
    | .error e => (.error e, fd1, fs)
    | .ok (fd', fs') => (.ok (), fd', fs')

/-- `os.Rename` over the modelled filesystem: fails when the source does
not exist. -/
def osRename (fs : List Str) (src dst : Str) : Option (List Str) :=
  if src ∈ fs then some (fs.map (fun f => if f = src then dst else f)) else none

/-- Result of `fileDest.EndRotate`: outcome, new destination state, new
filesystem, and the renames performed (source, destination), in order. -/
structure EndRes where
  res : Except FDErr Unit
  fd : FileDest
  fs : List Str
  renames : List (Str × Str)

/-- `fileDest.EndRotate` (`unnamed/part_000` lines 201-254): refuse when
`snapOK` is already set; with no recorded previous segment require the
output to carry `-curr` and set `snapOK`; otherwise require the output to
carry `-new`, rename it to `-curr`, then rename the previous segment
(whether `-curr` or `-new`) to `-old`, clear it, and set `snapOK`. -/
def fdEndRotate (fd : FileDest) (fs : List Str) : EndRes :=
  if fd.snapOK then ⟨.error .doubleEndRotate, fd, fs, []⟩
  else if fd.oldFilename = [] then
    if strEndsWith fd.outputFilename currExtS = false then
      ⟨.error .wrongFirstSuffix, fd, fs, []⟩
    else ⟨.ok (), { fd with snapOK := true }, fs, []⟩
  else if strEndsWith fd.outputFilename newExtS = false then
    ⟨.error .wrongNewSuffix, fd, fs, []⟩
  else
    let newName := strTrimSuffix fd.outputFilename newExtS ++ currExtS
    match osRename fs fd.outputFilename newName with
    | none => ⟨.error .renameFailed, fd, fs, []⟩
    | some fs1 =>
      let r1 := (fd.outputFilename, newName)
      let fd1 := { fd with outputFilename := newName }
      if strEndsWith fd1.oldFilename currExtS then
        let oldName := strTrimSuffix fd1.oldFilename currExtS ++ oldExtS
        match osRename fs1 fd1.oldFilename oldName with
        | none => ⟨.error .renameFailed, fd1, fs1, [r1]⟩
        | some fs2 =>
          ⟨.ok (), { fd1 with oldFilename := [], snapOK := true }, fs2,
            [r1, (fd1.oldFilename, oldName)]⟩
      else if strEndsWith fd1.oldFilename newExtS then
        let oldName := strTrimSuffix fd1.oldFilename newExtS ++ oldExtS
        match osRename fs1 fd1.oldFilename oldName with
        | none => ⟨.error .renameFailed, fd1, fs1, [r1]⟩
        | some fs2 =>
          ⟨.ok (), { fd1 with oldFilename := [], snapOK := true }, fs2,
            [r1, (fd1.oldFilename, oldName)]⟩
      else ⟨.error .wrongOldSuffix, fd1, fs1, [r1]⟩

instance {ε α : Type} [DecidableEq ε] [DecidableEq α] : DecidableEq (Except ε α) :=
  fun a b =>
    match a, b with
    | .error x, .error y =>
      if h : x = y then .isTrue (by rw [h]) else .isFalse (fun hc => h (by injection hc))
    | .ok x, .ok y =>
      if h : x = y then .isTrue (by rw [h]) else .isFalse (fun hc => h (by injection hc))
    | .error _, .ok _ => .isFalse (fun hc => by injection hc)
    | .ok _, .error _ => .isFalse (fun hc => by injection hc)

theorem strEndsWith_new_not_curr (y : Str) :
    strEndsWith (y ++ newExtS) currExtS = false := by
  by_contra h
  rw [Bool.not_eq_false] at h
  have h2 := strEndsWith_of_append (by decide) h
  exact absurd h2 (by decide)

theorem ends_new_imp_not_curr {s : Str} (h : strEndsWith s newExtS = true) :
    strEndsWith s currExtS = false := by
  have hd := strEndsWith_decomp h
  rw [hd]
  exact strEndsWith_new_not_curr _

theorem fdStartNew_ok {fd : FileDest} {fs : List Str} {now : Str} {u : Bool}
    {fd' : FileDest} {fs' : List Str} (h : fdStartNew fd fs now u = .ok (fd', fs')) :
    fd'.replayReaders = fd.replayReaders ∧ fd'.snapOK = false
      ∧ fd'.oldFilename = fd.oldFilename := by
  simp only [fdStartNew] at h
  rcases hc : createNewFile fs (fd.basepath ++ now) (if u = true then newExtS else currExtS)
    with e | ⟨fn, fs''⟩
  · rw [hc] at h
    exact absurd h (by simp)
  · rw [hc] at h
    simp only [Except.ok.injEq, Prod.mk.injEq] at h
    obtain ⟨hfd, hfs⟩ := h
    rw [← hfd]
    exact ⟨rfl, rfl, rfl⟩

theorem getLastD_concat (ms : List Str) (a : Str) : (ms ++ [a]).getLastD [] = a := by
  simp

theorem getLastD_concat2 (ms : List Str) (b a : Str) : (ms ++ [b, a]).getLastD [] = a := by
  have h : ms ++ [b, a] = (ms ++ [b]) ++ [a] := by simp
  rw [h, getLastD_concat]

theorem getD_secondLast (ms : List Str) (b a d : Str) :
    (ms ++ [b, a]).getD ((ms ++ [b, a]).length - 2) d = b := by
  have hlen : (ms ++ [b, a]).length - 2 = ms.length := by simp
  rw [hlen]
  induction ms with
  | nil => rfl
  | cons x xs ih => simpa using ih

/-- C2: `NewFileDest` classifies the sorted segment enumeration: an empty
set with `create = false` fails with the no-existing-log error and leaves
the filesystem untouched; a last entry ending in `-curr` yields a replay
of that single file; a last entry ending in `-new` preceded by a `-curr`
entry yields a replay of those two files, older first; and any other
shape fails with the ambiguous-segments error, leaving the filesystem
untouched. -/
theorem newFileDest_classification (fs : List Str) (basepath : Str) (create : Bool)
    (now : Str) (hbad : containsAnyBad basepath = false) (m : List Str)
    (hm : segEnum fs basepath = m) :
    (m = [] → create = false →
      newFileDest fs basepath create now = (.error .noExistingLog, fs))
  ∧ (∀ ms a, m = ms ++ [a] → strEndsWith a currExtS = true →
      ∀ fd fs2, newFileDest fs basepath create now = (.ok fd, fs2) →
        fd.replayReaders = [a])
  ∧ (∀ ms b a, m = ms ++ [b, a] → strEndsWith a newExtS = true →
      strEndsWith b currExtS = true →
      ∀ fd fs2, newFileDest fs basepath create now = (.ok fd, fs2) →
        fd.replayReaders = [b, a])
  ∧ (∀ ms a, m = ms ++ [a] → strEndsWith a currExtS = false →
      (strEndsWith a newExtS = true → 1 < m.length →
        strEndsWith (m.getD (m.length - 2) []) currExtS = false) →
      newFileDest fs basepath create now = (.error .ambiguousSegments, fs)) := by
  refine ⟨?_, ?_, ?_, ?_⟩
  · intro h1 h2
    subst h2
    simp [newFileDest, hbad, hm, h1]
  · intro ms a hm' hcurr fd fs2 h
    subst hm'
    simp only [newFileDest, hbad, Bool.false_eq_true, if_false, hm] at h
    rw [if_neg (by simp : ¬(ms ++ [a] = []))] at h
    rw [getLastD_concat] at h
    rw [if_pos hcurr] at h
    split at h
    next e heq => simp at h
    next fd1 heq =>
      rw [Except.ok.injEq] at heq
      split at h
      next e heq2 => simp at h
      next fd3 fs3 heq2 =>
        simp only [Prod.mk.injEq, Except.ok.injEq] at h
        obtain ⟨h1, _⟩ := h
        rw [← h1, (fdStartNew_ok heq2).1, ← heq]
  · intro ms b a hm' hnew hbcurr fd fs2 h
    subst hm'
    simp only [newFileDest, hbad, Bool.false_eq_true, if_false, hm] at h
    rw [if_neg (by simp : ¬(ms ++ [b, a] = []))] at h
    rw [getLastD_concat2, getD_secondLast] at h
    rw [if_neg (by rw [ends_new_imp_not_curr hnew]; simp)] at h
    rw [if_pos (by
      rw [hnew, hbcurr]
      simp only [Bool.true_and, Bool.and_true, decide_eq_true_eq, List.length_append,
        List.length_cons]
      omega)] at h
    split at h
    next e heq => simp at h
    next fd1 heq =>
      rw [Except.ok.injEq] at heq
      split at h
      next e heq2 => simp at h
      next fd3 fs3 heq2 =>
        simp only [Prod.mk.injEq, Except.ok.injEq] at h
        obtain ⟨h1, _⟩ := h
        rw [← h1, (fdStartNew_ok heq2).1, ← heq]
  · intro ms a hm' hcurr hother
    subst hm'
    simp only [newFileDest, hbad, Bool.false_eq_true, if_false, hm]
    rw [if_neg (by simp : ¬(ms ++ [a] = []))]
    rw [getLastD_concat]
    rw [if_neg (by rw [hcurr]; simp)]
    rw [if_neg (by
      cases hnew : strEndsWith a newExtS with
      | false => simp
      | true =>
        by_cases hlen : 1 < (ms ++ [a]).length
        · rw [hother hnew hlen]
          simp
        · simp only [Bool.and_eq_true, decide_eq_true_eq, not_and]
          intro hx _
          exact absurd hx.2 hlen)]

/-- C3: the `snapOK` transitions of the rotation state machine:
`StartRotate` with `snapOK` false fails with the rotate-before-snapshot
error and changes nothing; `EndRotate` with `snapOK` true fails with the
double-end-rotate error and changes nothing; a successful `EndRotate`
leaves `snapOK` true; opening a destination (`NewFileDest`) and a
successful `StartRotate` leave `snapOK` false. -/
theorem snapOK_state_machine :
    (∀ (fd : FileDest) (fs : List Str) (now : Str), fd.snapOK = false →
      fdStartRotate fd fs now = (.error .rotateBeforeSnapshot, fd, fs))
  ∧ (∀ (fd : FileDest) (fs : List Str), fd.snapOK = true →
      fdEndRotate fd fs = ⟨.error .doubleEndRotate, fd, fs, []⟩)
  ∧ (∀ (fd : FileDest) (fs : List Str) (res : Except FDErr Unit) (fd' : FileDest)
      (fs' : List Str) (rn : List (Str × Str)),
      fdEndRotate fd fs = ⟨res, fd', fs', rn⟩ → res = .ok () → fd'.snapOK = true)
  ∧ (∀ (fs : List Str) (bp : Str) (create : Bool) (now : Str) (fd : FileDest)
      (fs2 : List Str),
      newFileDest fs bp create now = (.ok fd, fs2) → fd.snapOK = false)
  ∧ (∀ (fd : FileDest) (fs : List Str) (now : Str) (fd' : FileDest) (fs' : List Str),
      fdStartRotate fd fs now = (.ok (), fd', fs') → fd'.snapOK = false) := by
  refine ⟨?_, ?_, ?_, ?_, ?_⟩
  · intro fd fs now h
    simp [fdStartRotate, h]
  · intro fd fs h
    simp [fdEndRotate, h]
  · intro fd fs res fd' fs' rn h hres
    simp only [fdEndRotate] at h
    repeat' split at h
    all_goals injection h with h1 h2 h3 h4
    all_goals subst h1
    all_goals subst h2
    all_goals first
      | rfl
      | exact absurd hres (by simp)
  · intro fs bp create now fd fs2 h
    simp only [newFileDest] at h
    split at h
    next hcond => simp at h
    next hcond =>
      split at h
      next e heq => simp at h
      next fd1 heq =>
        split at h
        next e heq2 => simp at h
        next fd3 fs3 heq2 =>
          simp only [Prod.mk.injEq, Except.ok.injEq] at h
          obtain ⟨h1, _⟩ := h
          rw [← h1]
          exact (fdStartNew_ok heq2).2.1
  · intro fd fs now fd' fs' h
    simp only [fdStartRotate] at h
    split at h
    next hcond => simp at h
    next hcond =>
      split at h
      next e heq => simp at h
      next fd3 fs3 heq =>
        simp only [Prod.mk.injEq, Except.ok.injEq] at h
        obtain ⟨_, h2, _⟩ := h
        rw [← h2]
        exact (fdStartNew_ok heq).2.1

def fdSnapW : FileDest :=
  { basepath := ['n', 'f'], replayReaders := [], outputFile := none,
    outputFilename := [], oldFilename := [], snapOK := false }

theorem snapOK_state_machine_witness :
    fdStartRotate fdSnapW [] [] = (.error .rotateBeforeSnapshot, fdSnapW, []) :=
  snapOK_state_machine.1 fdSnapW [] [] rfl

/-- C7: `EndRotate` with a recorded previous segment ending in `-new`
renames the current `-new` output segment to `-curr` and the previous
`-new` segment to `-old`, and performs no rename whose source is a
`-curr` segment: the `-curr` file that logically precedes the demoted
`-new` segment is left in place. -/
theorem endRotate_demotes_new_only (fd : FileDest) (fs : List Str) (x y : Str)
    (hsnap : fd.snapOK = false)
    (hold : fd.oldFilename = x ++ newExtS)
    (hout : fd.outputFilename = y ++ newExtS)
    (hne : x ++ newExtS ≠ y ++ newExtS)
    (hmem1 : y ++ newExtS ∈ fs)
    (hmem2 : x ++ newExtS ∈ fs) :
    (fdEndRotate fd fs).res = .ok ()
  ∧ (fdEndRotate fd fs).renames
      = [(y ++ newExtS, y ++ currExtS), (x ++ newExtS, x ++ oldExtS)]
  ∧ (∀ p ∈ (fdEndRotate fd fs).renames, strEndsWith p.1 currExtS = false) := by
  obtain ⟨bp, rr, of, ofn, oldn, sn⟩ := fd
  simp only at hsnap hold hout
  subst hsnap
  subst hold
  subst hout
  have hmem2' : x ++ newExtS ∈ fs.map
      (fun f => if f = y ++ newExtS then y ++ currExtS else f) :=
    List.mem_map.mpr ⟨x ++ newExtS, hmem2, by rw [if_neg hne]⟩
  simp only [fdEndRotate]
  rw [if_neg (by simp : ¬(false = true))]
  rw [if_neg (by simp [newExtS] : ¬(x ++ newExtS = []))]
  rw [if_neg (by rw [strEndsWith_append]; simp :
    ¬(strEndsWith (y ++ newExtS) newExtS = false))]
  rw [strTrimSuffix_append]
  simp only [osRename, if_pos hmem1]
  rw [if_neg (by rw [strEndsWith_new_not_curr]; simp :
    ¬(strEndsWith (x ++ newExtS) currExtS = true))]
  rw [if_pos (strEndsWith_append x newExtS)]
  rw [strTrimSuffix_append]
  simp only [osRename, if_pos hmem2']
  refine ⟨trivial, trivial, ?_⟩
  intro p hp
  simp only [List.mem_cons, List.not_mem_nil] at hp
  rcases hp with hp | hp | hp
  · rw [hp]
    exact strEndsWith_new_not_curr y
  · rw [hp]
    exact strEndsWith_new_not_curr x
  · cases hp

def xW : Str := ['n', 'f', '-', '1']

def yW : Str := ['n', 'f', '-', '2']

def fdC7 : FileDest :=
  { basepath := ['n', 'f'], replayReaders := [], outputFile := some (yW ++ newExtS),
    outputFilename := yW ++ newExtS, oldFilename := xW ++ newExtS, snapOK := false }

def fsC7 : List Str := [xW ++ newExtS, yW ++ newExtS]

theorem endRotate_demotes_new_only_witness :
    (fdEndRotate fdC7 fsC7).res = .ok ()
  ∧ (fdEndRotate fdC7 fsC7).renames
      = [(yW ++ newExtS, yW ++ currExtS), (xW ++ newExtS, xW ++ oldExtS)]
  ∧ (∀ p ∈ (fdEndRotate fdC7 fsC7).renames, strEndsWith p.1 currExtS = false) :=
  endRotate_demotes_new_only fdC7 fsC7 xW yW rfl rfl rfl
    (by decide) (by decide) (by decide)

theorem tryStems_eq_find (fs : List Str) (ext : Str) (stems : List Str) :
    tryStems fs ext stems
      = match stems.find? (fun s => !stemTaken fs s) with
        | none => .error .tooManySecond
        | some s => .ok (s ++ ext, (s ++ ext) :: fs) := by
  induction stems with
  | nil => rfl
  | cons stem rest ih =>
    by_cases ht : stemTaken fs stem = true
    · rw [List.find?_cons_of_neg _ (by simp [ht])]
      simp only [tryStems, if_pos ht]
      exact ih
    · have ht' : stemTaken fs stem = false := by rwa [Bool.not_eq_true] at ht
      have hnm : (stem ++ ext) ∉ fs := fun hmem => ht (by
        unfold stemTaken
        rw [List.any_eq_true]
        exact ⟨stem ++ ext, hmem, strStartsWith_append stem ext⟩)
      rw [List.find?_cons_of_pos _ (by simp [ht'])]
      simp only [tryStems, if_neg ht, if_neg hnm]

/-- C8: opening a new output segment fails with the
too-many-log-files-in-the-same-second error exactly when the undecorated
timestamp stem and every stem disambiguated with a single letter from a
through z are already taken by existing files (some existing file begins
with the stem); otherwise the first free stem in that order gets the
extension appended and is created exclusively (it did not exist
before). -/
theorem createNewFile_disambiguation (fs : List Str) (name ext : Str) :
    (createNewFile fs name ext = .error .tooManySecond ↔
      ∀ s ∈ candidateStems name, stemTaken fs s = true)
  ∧ (∀ s, (candidateStems name).find? (fun s => !stemTaken fs s) = some s →
      createNewFile fs name ext = .ok (s ++ ext, (s ++ ext) :: fs)
        ∧ (s ++ ext) ∉ fs) := by
  constructor
  · rw [createNewFile, tryStems_eq_find]
    cases hf : (candidateStems name).find? (fun s => !stemTaken fs s) with
    | none =>
      constructor
      · intro _ s hs
        have h2 := List.find?_eq_none.mp hf s hs
        simpa using h2
      · intro _
        rfl
    | some s0 =>
      constructor
      · intro hcontra
        exact absurd hcontra (by simp)
      · intro hall
        have hp := List.find?_some hf
        have hmem := List.mem_of_find?_eq_some hf
        have h3 := hall s0 hmem
        rw [h3] at hp
        simp at hp
  · intro s hf
    rw [createNewFile, tryStems_eq_find, hf]
    have hp := List.find?_some hf
    have hsf : stemTaken fs s = false := by simpa using hp
    refine ⟨rfl, ?_⟩
    intro hmem
    have htaken : stemTaken fs s = true := by
      unfold stemTaken
      rw [List.any_eq_true]
      exact ⟨s ++ ext, hmem, strStartsWith_append s ext⟩
    rw [htaken] at hsf
    simp at hsf

def nameW : Str := ['n', 'f', '-', '3']

def fsC8 : List Str := [nameW ++ newExtS]

theorem createNewFile_disambiguation_witness :
    createNewFile fsC8 nameW newExtS
      = .ok ((nameW ++ ['a']) ++ newExtS, ((nameW ++ ['a']) ++ newExtS) :: fsC8)
  ∧ ((nameW ++ ['a']) ++ newExtS) ∉ fsC8 :=
  (createNewFile_disambiguation fsC8 nameW newExtS).2 (nameW ++ ['a']) (by decide)

def bpW : Str := ['n', 'f']

def fileCurrW : Str := bpW ++ ['-', '1'] ++ currExtS

def nowW : Str := ['-', '2']

def fnW : Str := (bpW ++ nowW) ++ newExtS

def fdW : FileDest :=
  { basepath := bpW, replayReaders := [fileCurrW], outputFile := some fnW,
    outputFilename := fnW, oldFilename := fileCurrW, snapOK := false }

def fsW : List Str := [fnW, fileCurrW]

theorem newFileDest_classification_witness :
    fdW.replayReaders = [fileCurrW] :=
  (newFileDest_classification [fileCurrW] bpW false nowW (by decide) [fileCurrW]
      (by decide)).2.1 [] fileCurrW rfl (by decide) fdW fsW (by decide)

end Persist
